import Mathlib

/-!
Verification development for the delayed-invocation (debounce/throttle) engine of
`@kitiumai/utils-react`, i.e. the module `src/hooks/performance/delayed/index.ts`
(`useDelayedCallbackFactory` / `createDelayedCallback` with its helper hooks
`useInvoke`, `useCancel`, `useFlush`, `useIsPending`, `useDebounceHandler`,
`useThrottleHandler`, `useDelayedCallback`).

The embedding is a discrete-time small-step semantics.  The mutable React refs of
one invoker instance become the fields of `State`; `setTimeout` allocates a fresh
timer id and records the timer (due time and which callback body it runs) in the
multiset `live`; `clearTimeout` removes a timer from `live`; a ref may therefore
hold a dangling id or lose track of a still-live timer, exactly as in the source.
The wrapped action is opaque: each call of it is recorded in `log`, and every
external event carries a flag saying whether the action throws if it is called
during that event (a throw aborts the remaining statements of the handler, as a
propagating JS exception does).

Instrumentation on top of the source state: `nextRid` numbers the `invoke` calls,
and the recording id `rid` is stored alongside the pending argument tuple and in
the log, so that "the same pending argument tuple" and "the arguments of the last
call" can be stated precisely.  `rid` fields influence nothing in the semantics.
-/

namespace Delayed

/-- Mode of the delayed callback, mirroring `DelayMode = 'debounce' | 'throttle'`. -/
inductive DelayMode where
  | debounce
  | throttle
deriving DecidableEq, Repr

/-- Mirror of `DelayedCallbackConfig` (after the wrapper hooks have filled the
optional fields): `maxWait = none` models an absent/`Infinity` max wait. -/
structure Config where
  mode : DelayMode
  delay : Nat
  leading : Bool
  trailing : Bool
  maxWait : Option Nat
deriving DecidableEq, Repr

/-- The JS condition `config.maxWait && config.maxWait < Infinity`: a set,
non-zero (truthy), finite max wait. -/
def maxWaitEnabled (c : Config) : Bool :=
  match c.maxWait with
  | some m => m != 0
  | none => false

/-- Numeric value of `config.maxWait` when set. -/
def maxWaitVal (c : Config) : Nat :=
  c.maxWait.getD 0

/-- Which callback body a scheduled timer runs: the trailing timer of
`useDebounceHandler`, one of the (identical) trailing timers of
`useThrottleHandler`, or the max-wait timer of `useDebounceHandler`. -/
inductive TimerKind where
  | debTrail
  | throTrail
  | maxW
deriving DecidableEq, Repr

/-- A live `setTimeout` registration: its handle, absolute due time, and body. -/
structure Timer where
  id : Nat
  due : Nat
  kind : TimerKind
deriving DecidableEq, Repr

/-- A recorded pending argument tuple: the arguments of the `invoke` call plus
the instrumentation id of that call. -/
structure PendingRec (α : Type) where
  args : α
  rid : Nat
deriving DecidableEq, Repr

/-- One call of the wrapped action: when it ran, with which argument tuple, and
which `invoke` call had recorded that tuple. -/
structure ActionCall (α : Type) where
  time : Nat
  args : α
  rid : Nat
deriving DecidableEq, Repr

/-- The mutable state of one invoker instance.  `timeoutRef`, `maxWaitRef`,
`lastCallTime`, `lastInvokeTime` and `pending` mirror `timeoutReference`,
`maxWaitTimeoutReference`, `lastCallTimeReference`, `lastInvokeTimeReference`
and `pendingArgumentsReference`; `live` and `nextId` model the host timer
queue; `nextRid` and `log` are instrumentation. -/
structure State (α : Type) where
  timeoutRef : Option Nat
  maxWaitRef : Option Nat
  lastCallTime : Nat
  lastInvokeTime : Nat
  pending : Option (PendingRec α)
  live : List Timer
  nextId : Nat
  nextRid : Nat
  log : List (ActionCall α)
deriving DecidableEq, Repr

/-- Fresh invoker state (all refs null, timestamps 0, no pending args). -/
def State.initial {α : Type} : State α :=
  { timeoutRef := none
    maxWaitRef := none
    lastCallTime := 0
    lastInvokeTime := 0
    pending := none
    live := []
    nextId := 0
    nextRid := 0
    log := [] }

/-- `clearTimeout(id)`: drop the timer with this handle from the host queue
(no-op if it already fired or was cleared). -/
def removeLive {α : Type} (s : State α) (i : Nat) : State α :=
  { s with live := s.live.filter (fun tm => tm.id != i) }

/-- `timeoutReference.current = setTimeout(body, ms)`: register a fresh timer
due at `due` running the trailing body `k` and store its handle in the ref.
The previous ref content is overwritten without being cleared, as in the source. -/
def addTrailTimer {α : Type} (s : State α) (due : Nat) (k : TimerKind) : State α :=
  { s with
    live := s.live ++ [⟨s.nextId, due, k⟩]
    timeoutRef := some s.nextId
    nextId := s.nextId + 1 }

/-- `maxWaitTimeoutReference.current = setTimeout(body, maxWait)`. -/
def addMaxWaitTimer {α : Type} (s : State α) (due : Nat) : State α :=
  { s with
    live := s.live ++ [⟨s.nextId, due, TimerKind.maxW⟩]
    maxWaitRef := some s.nextId
    nextId := s.nextId + 1 }

/-- `useInvoke`'s `invokeFunction`: if arguments are pending, call the action
with them, then set `lastInvokeTime` and clear `pending`.  The action is called
BEFORE the state updates, so when it throws (`thr = true`) the call is logged
but `lastInvokeTime` and `pending` are left untouched.  Returns the state and
whether an exception is propagating. -/
def invokeFn {α : Type} (now : Nat) (thr : Bool) (s : State α) : State α × Bool :=
  match s.pending with
  | none => (s, false)
  | some r =>
    let s := { s with log := s.log ++ [⟨now, r.args, r.rid⟩] }
    if thr then (s, true)
    else ({ s with lastInvokeTime := now, pending := none }, false)

/-- `useCancel`: clear both timers (nulling the refs), discard pending args and
reset `lastCallTime` to 0.  `lastInvokeTime` is NOT touched. -/
def cancelOp {α : Type} (s : State α) : State α :=
  let s :=
    match s.timeoutRef with
    | some i => { removeLive s i with timeoutRef := none }
    | none => s
  let s :=
    match s.maxWaitRef with
    | some i => { removeLive s i with maxWaitRef := none }
    | none => s
  { s with pending := none, lastCallTime := 0 }

/-- `useFlush`: early return when nothing is pending; otherwise clear both
timers and the pending args, then — unless `mode = debounce ∧ leading`
(`shouldSkipInvoke`) — call the action with the previously pending args and
update `lastInvokeTime` (skipped when the action throws). -/
def flushOp {α : Type} (c : Config) (now : Nat) (thr : Bool) (s : State α) : State α :=
  match s.pending with
  | none => s
  | some r =>
    let shouldSkipInvoke := (c.mode == DelayMode.debounce) && c.leading
    let s :=
      match s.timeoutRef with
      | some i => { removeLive s i with timeoutRef := none }
      | none => s
    let s :=
      match s.maxWaitRef with
      | some i => { removeLive s i with maxWaitRef := none }
      | none => s
    let s := { s with pending := none, lastCallTime := 0 }
    if shouldSkipInvoke then s
    else
      let s := { s with log := s.log ++ [⟨now, r.args, r.rid⟩] }
      if thr then s else { s with lastInvokeTime := now }

/-- `useIsPending`: whether `pendingArgumentsReference.current !== null`. -/
def isPendingOp {α : Type} (s : State α) : Bool :=
  s.pending.isSome

/-- Second half of `useDebounceHandler`'s body: schedule the trailing timer
(due `now + delay`) and, when `config.maxWait && config.maxWait < Infinity`
holds and no max-wait timer handle is stored, the max-wait timer
(due `now + maxWait`). -/
def debounceSchedule {α : Type} (c : Config) (now : Nat) (s : State α) : State α :=
  let s := addTrailTimer s (now + c.delay) TimerKind.debTrail
  let shouldSetMaxWait := maxWaitEnabled c && s.maxWaitRef.isNone
  if shouldSetMaxWait then addMaxWaitTimer s (now + maxWaitVal c) else s

/-- `useDebounceHandler`: compute `isLeadingInvoke` from the stored trailing
handle, clear the existing trailing timer (without nulling the ref), invoke on
the leading edge when applicable (a throw there aborts the rest), set `pending`
to null again after a leading invoke, then schedule the timers. -/
def handleDebounce {α : Type} (c : Config) (now : Nat) (thr : Bool) (s : State α) : State α :=
  let isLeadingInvoke := c.leading && s.timeoutRef.isNone
  let s :=
    match s.timeoutRef with
    | some i => removeLive s i
    | none => s
  if isLeadingInvoke then
    match invokeFn now thr s with
    | (s, true) => s
    | (s, false) => debounceSchedule c now { s with pending := none }
  else debounceSchedule c now s

/-- `useThrottleHandler`: if `delay ≤ now - lastInvokeTime`, invoke immediately
when `leading`, else (when `trailing`) schedule a trailing timer due
`now + delay` — overwriting the ref WITHOUT clearing any existing timer, as in
the source; inside the window, when `trailing`, clear the referenced timer and
schedule one due after the remaining delay. -/
def handleThrottle {α : Type} (c : Config) (now : Nat) (thr : Bool) (s : State α) : State α :=
  let timeSinceLastRun := now - s.lastInvokeTime
  if c.delay ≤ timeSinceLastRun then
    if c.leading then (invokeFn now thr s).1
    else if c.trailing then addTrailTimer s (now + c.delay) TimerKind.throTrail
    else s
  else
    if c.trailing then
      let s :=
        match s.timeoutRef with
        | some i => removeLive s i
        | none => s
      addTrailTimer s (now + (c.delay - timeSinceLastRun)) TimerKind.throTrail
    else s

/-- `useDelayedCallback`: record the argument tuple as pending (stamped with the
next recording id), update `lastCallTime`, then dispatch on the mode. -/
def callOp {α : Type} (c : Config) (now : Nat) (a : α) (thr : Bool) (s : State α) : State α :=
  let s := { s with
    pending := some ⟨a, s.nextRid⟩
    nextRid := s.nextRid + 1
    lastCallTime := now }
  match c.mode with
  | DelayMode.debounce => handleDebounce c now thr s
  | DelayMode.throttle => handleThrottle c now thr s

/-- Firing of the live timer with handle `i` at time `tf` (no-op when no such
timer is live).  The timer leaves the host queue, then its body runs:
debounce trailing — null the ref, then invoke unless a leading invoke already
consumed the pending args (`!config.leading || pending`); throttle trailing —
invoke when args are pending, then null the ref (skipped when the action
throws); max-wait — null the ref, then invoke. -/
def fireOp {α : Type} (c : Config) (tf : Nat) (i : Nat) (thr : Bool) (s : State α) : State α :=
  match s.live.find? (fun tm => tm.id == i) with
  | none => s
  | some tm =>
    let s := removeLive s i
    match tm.kind with
    | TimerKind.debTrail =>
      let s := { s with timeoutRef := none }
      if !c.leading || s.pending.isSome then (invokeFn tf thr s).1 else s
    | TimerKind.throTrail =>
      if s.pending.isSome then
        match invokeFn tf thr s with
        | (s, true) => s
        | (s, false) => { s with timeoutRef := none }
      else { s with timeoutRef := none }
    | TimerKind.maxW =>
      let s := { s with maxWaitRef := none }
      (invokeFn tf thr s).1

/-- External events of one invoker instance.  `call` is an application of the
wrapped (delayed) function; `fire` is the host scheduler running a due timer;
`cancel` and `flush` are the escape hatches.  The `thr` flag says whether the
wrapped action throws if it is called during the event. -/
inductive Event (α : Type) where
  | call (t : Nat) (args : α) (thr : Bool)
  | fire (t : Nat) (id : Nat) (thr : Bool)
  | cancel (t : Nat)
  | flush (t : Nat) (thr : Bool)
deriving DecidableEq, Repr

/-- Time at which an event happens. -/
def Event.time {α : Type} : Event α → Nat
  | Event.call t _ _ => t
  | Event.fire t _ _ => t
  | Event.cancel t => t
  | Event.flush t _ => t

/-- Whether the event is a timer firing. -/
def Event.isFireB {α : Type} : Event α → Bool
  | Event.fire _ _ _ => true
  | _ => false

/-- Whether the event is an application of the delayed function. -/
def Event.isCallB {α : Type} : Event α → Bool
  | Event.call _ _ _ => true
  | _ => false

/-- Whether the event is a `cancel()`. -/
def Event.isCancelB {α : Type} : Event α → Bool
  | Event.cancel _ => true
  | _ => false

/-- Whether the event is a `flush()`. -/
def Event.isFlushB {α : Type} : Event α → Bool
  | Event.flush _ _ => true
  | _ => false

/-- Whether the wrapped action would throw during this event. -/
def Event.throwsB {α : Type} : Event α → Bool
  | Event.call _ _ thr => thr
  | Event.fire _ _ thr => thr
  | Event.cancel _ => false
  | Event.flush _ thr => thr

/-- One step of the invoker under event `e`. -/
def step {α : Type} (c : Config) (s : State α) (e : Event α) : State α :=
  match e with
  | Event.call t a thr => callOp c t a thr s
  | Event.fire t i thr => fireOp c t i thr s
  | Event.cancel _ => cancelOp s
  | Event.flush t thr => flushOp c t thr s

/-- Run a list of events from a state. -/
def run {α : Type} (c : Config) (s : State α) (es : List (Event α)) : State α :=
  es.foldl (step c) s

/-- A trace is realizable under the host's eager timer semantics: event times
are nondecreasing, a timer fires exactly at its due time, and no event happens
while an earlier-due live timer has not fired yet. -/
def wellTimedB {α : Type} (c : Config) : Nat → State α → List (Event α) → Bool
  | _, _, [] => true
  | tp, s, e :: es =>
    decide (tp ≤ e.time) &&
    s.live.all (fun tm => decide (e.time ≤ tm.due)) &&
    (match e with
     | Event.fire t i _ => s.live.any (fun tm => tm.id == i && tm.due == t)
     | _ => true) &&
    wellTimedB c e.time (step c s e) es

/-- All events of the trace leave the wrapped action non-throwing. -/
def throwFree {α : Type} (es : List (Event α)) : Bool :=
  es.all (fun e => !e.throwsB)

/-- All events of the trace are throw-free timer firings (no further calls,
cancels or flushes). -/
def firesOnly {α : Type} (es : List (Event α)) : Bool :=
  es.all (fun e => e.isFireB && !e.throwsB)

/-- Times of the `call` events of a trace. -/
def callTimes {α : Type} (es : List (Event α)) : List Nat :=
  es.filterMap (fun e =>
    match e with
    | Event.call t _ _ => some t
    | _ => none)

/-- Consecutive call times are strictly increasing and strictly less than
`d` apart. -/
def gapsLt {α : Type} (d : Nat) (es : List (Event α)) : Prop :=
  List.Chain' (fun a b => a < b ∧ b < a + d) (callTimes es)

/-- In debounce mode every live timer runs a debounce body (trailing or
max-wait), never a throttle body. -/
def DebKinds {α : Type} (s : State α) : Prop :=
  ∀ tm ∈ s.live, tm.kind ≠ TimerKind.throTrail

/-- Instrumentation invariant: logged recording ids are below the counter and
strictly increasing, and the pending recording is fresher than everything
logged. -/
def RidInv {α : Type} (s : State α) : Prop :=
  (∀ e ∈ s.log, e.rid < s.nextRid) ∧
  List.Pairwise (fun x y => x.rid < y.rid) s.log ∧
  (∀ r : PendingRec α, s.pending = some r →
    r.rid < s.nextRid ∧ ∀ e ∈ s.log, e.rid < r.rid)

/-- Debounce configuration with leading flag `l` and a finite max wait `W`,
used for the max-wait burst analysis. -/
def cfgW (d W : Nat) (l tr : Bool) : Config :=
  ⟨DelayMode.debounce, d, l, tr, some W⟩

/-- Call events of a burst, one per `(time, args)` pair. -/
def burstEvents {α : Type} (ps : List (Nat × α)) : List (Event α) :=
  ps.map (fun p => Event.call p.1 p.2 false)

/-- Invoker state right after the first call (time `t1`, args `a`) of a
debounce burst under `cfgW d W l tr`: the trailing timer `0` (due `t1 + d`)
and the max-wait timer `1` (due `t1 + W`) are live; with `l = true` the
leading edge has already invoked the action (consuming the pending args and
stamping `lastInvokeTime`), with `l = false` the args are still pending. -/
def firstState (d W t1 : Nat) {α : Type} (a : α) (l : Bool) : State α :=
  { timeoutRef := some 0
    maxWaitRef := some 1
    lastCallTime := t1
    lastInvokeTime := cond l t1 0
    pending := cond l none (some ⟨a, 0⟩)
    live := [⟨0, t1 + d, TimerKind.debTrail⟩, ⟨1, t1 + W, TimerKind.maxW⟩]
    nextId := 2
    nextRid := 1
    log := cond l [⟨t1, a, 0⟩] [] }

/-- Invoker state in the middle of a debounce burst under `cfgW d W l tr`,
after at least one further call beyond the first: the trailing timer `u` (due
`tu + d`, where `tu` is the time of the latest call) and the max-wait timer
`1` (due `t1 + W`, anchored at the first call) are the live timers, the
latest argument tuple `a` is pending with recording id `j`, and the log `lg`
and `lastInvokeTime` `li` record the leading invocation if one happened. -/
def burstMid (d W t1 u tu : Nat) {α : Type} (a : α) (j n : Nat)
    (liv : List Timer) (li : Nat) (lg : List (ActionCall α)) : State α :=
  { timeoutRef := some u
    maxWaitRef := some 1
    lastCallTime := tu
    lastInvokeTime := li
    pending := some ⟨a, j⟩
    live := liv
    nextId := n
    nextRid := j + 1
    log := lg }

/-- Throttle configuration `delay = 5, leading = false, trailing = true`
(the configuration of the timer-leak scenarios). -/
def cfgThroNoLead : Config := ⟨DelayMode.throttle, 5, false, true, none⟩

/-- Debounce configuration `delay = 5, leading = true, trailing = true`. -/
def cfgDebLead : Config := ⟨DelayMode.debounce, 5, true, true, none⟩

/-- Throttle configuration `delay = 5, leading = true, trailing = true`. -/
def cfgThroLead : Config := ⟨DelayMode.throttle, 5, true, true, none⟩

/-- Throttle configuration `delay = 5, leading = true, trailing = false`. -/
def cfgThroLeadNoTrail : Config := ⟨DelayMode.throttle, 5, true, false, none⟩

/-- Trace exhibiting the leaked throttle trailing timer under `cfgThroNoLead`:
the call at 12 arrives with `delay ≤ now - lastInvokeTime` while timer 0
(due 15) is still live, and the source schedules timer 1 (due 17) without
clearing timer 0. -/
def leakTrace : List (Event Nat) :=
  [Event.call 10 1 false, Event.call 12 2 false, Event.fire 15 0 false,
   Event.call 16 3 false, Event.fire 17 1 false]

/-- Two debounce calls under `cfgDebLead`: the first fires on the leading edge,
the second (inside the window) queues a trailing invocation. -/
def dblTrace : List (Event Nat) :=
  [Event.call 0 1 false, Event.call 2 2 false]

/-- State reached by `dblTrace` under `cfgDebLead`: args `2` pending
(recording id 1), trailing timer due 7 live. -/
def dblState : State Nat := run cfgDebLead State.initial dblTrace

/-- A throttle call, a cancel, and another call inside the original window. -/
def cancelTrace : List (Event Nat) :=
  [Event.call 10 1 false, Event.cancel 11, Event.call 12 2 false]

/-- A leading throttle call followed by a call inside the window, which with
`trailing = false` is dropped. -/
def droppedTrace : List (Event Nat) :=
  [Event.call 10 1 false, Event.call 12 2 false]

/-- Burst trace for the concrete max-wait witness: debounce `delay = 10`,
`maxWait = 5`, calls at 0 and 3, max-wait timer (id 1) fires at 5. -/
def maxWaitTrace : List (Event Nat) :=
  [Event.call 0 1 false, Event.call 3 2 false, Event.fire 5 1 false]


/-! ### Projection helpers -/

variable {α : Type}

@[simp] theorem removeLive_timeoutRef (s : State α) (i : Nat) :
    (removeLive s i).timeoutRef = s.timeoutRef := rfl

@[simp] theorem removeLive_maxWaitRef (s : State α) (i : Nat) :
    (removeLive s i).maxWaitRef = s.maxWaitRef := rfl

@[simp] theorem removeLive_pending (s : State α) (i : Nat) :
    (removeLive s i).pending = s.pending := rfl

@[simp] theorem removeLive_log (s : State α) (i : Nat) :
    (removeLive s i).log = s.log := rfl

@[simp] theorem removeLive_lastInvokeTime (s : State α) (i : Nat) :
    (removeLive s i).lastInvokeTime = s.lastInvokeTime := rfl

@[simp] theorem removeLive_nextRid (s : State α) (i : Nat) :
    (removeLive s i).nextRid = s.nextRid := rfl

@[simp] theorem addTrailTimer_pending (s : State α) (d : Nat) (k : TimerKind) :
    (addTrailTimer s d k).pending = s.pending := rfl

@[simp] theorem addTrailTimer_log (s : State α) (d : Nat) (k : TimerKind) :
    (addTrailTimer s d k).log = s.log := rfl

@[simp] theorem addTrailTimer_maxWaitRef (s : State α) (d : Nat) (k : TimerKind) :
    (addTrailTimer s d k).maxWaitRef = s.maxWaitRef := rfl

@[simp] theorem addTrailTimer_lastInvokeTime (s : State α) (d : Nat) (k : TimerKind) :
    (addTrailTimer s d k).lastInvokeTime = s.lastInvokeTime := rfl

@[simp] theorem addTrailTimer_nextRid (s : State α) (d : Nat) (k : TimerKind) :
    (addTrailTimer s d k).nextRid = s.nextRid := rfl

@[simp] theorem addMaxWaitTimer_pending (s : State α) (d : Nat) :
    (addMaxWaitTimer s d).pending = s.pending := rfl

@[simp] theorem addMaxWaitTimer_log (s : State α) (d : Nat) :
    (addMaxWaitTimer s d).log = s.log := rfl

@[simp] theorem addMaxWaitTimer_nextRid (s : State α) (d : Nat) :
    (addMaxWaitTimer s d).nextRid = s.nextRid := rfl

theorem invokeFn_pending_none (now : Nat) (thr : Bool) (s : State α)
    (h : s.pending = none) : invokeFn now thr s = (s, false) := by
  simp [invokeFn, h]

theorem invokeFn_true_pending (now : Nat) (s : State α) :
    ((invokeFn now true s).1).pending = s.pending := by
  cases h : s.pending <;> simp [invokeFn, h]

theorem debounceSchedule_pending (c : Config) (now : Nat) (s : State α) :
    (debounceSchedule c now s).pending = s.pending := by
  simp only [debounceSchedule]
  split <;> rfl

theorem handleDebounce_true_pending (c : Config) (now : Nat) (s : State α) :
    (handleDebounce c now true s).pending = s.pending := by
  simp only [handleDebounce]
  cases hT : s.timeoutRef <;> cases hl : c.leading <;>
    simp [hT, hl, debounceSchedule_pending, removeLive] <;>
    cases hp : s.pending <;>
      simp [invokeFn, hp, debounceSchedule_pending]

theorem handleThrottle_true_pending (c : Config) (now : Nat) (s : State α) :
    (handleThrottle c now true s).pending = s.pending := by
  simp only [handleThrottle]
  split
  · split
    · exact invokeFn_true_pending now s
    · split <;> rfl
  · split
    · cases hT : s.timeoutRef <;> simp [hT, addTrailTimer, removeLive]
    · rfl

theorem run_append (c : Config) (s : State α) (xs ys : List (Event α)) :
    run c s (xs ++ ys) = run c (run c s xs) ys :=
  List.foldl_append _ _ _ _

/-! ### Claim theorems -/

/-- C2: the claim states the throttle rate cap — no two invocations of the
action occur less than `delay` milliseconds apart, except the very first under
`leading = true`.  The code violates it: with `leading = false, trailing = true,
delay = 5`, a realizable (well-timed), throw-free trace produces invocations at
t = 15 and t = 17, only 2 ms apart.  The call at t = 12 runs the
`delay ≤ timeSinceLastRun` branch of `useThrottleHandler`, which stores a new
trailing timer in `timeoutReference` without clearing the live one, so the
leaked timer fires 2 ms after the regular one. -/
theorem c2_throttle_rate_cap_violated :
    (run cfgThroNoLead State.initial leakTrace).log =
      [⟨15, 2, 1⟩, ⟨17, 3, 2⟩] ∧
    wellTimedB cfgThroNoLead 0 State.initial leakTrace = true ∧
    throwFree leakTrace = true ∧
    17 - 15 < cfgThroNoLead.delay := by
  decide

/-- C4: the claim states at most one trailing timer is live at any time.  After
the first two events of `leakTrace` (throttle calls at t = 10 and t = 12, both
with `delay ≤ timeSinceLastRun`), two throttle trailing timers are live at
once, because the second `setTimeout` overwrote `timeoutReference` without
`clearTimeout` on the first. -/
theorem c4_two_trailing_timers_live :
    ((run cfgThroNoLead State.initial (leakTrace.take 2)).live.countP
      (fun tm => tm.kind == TimerKind.throTrail)) = 2 ∧
    wellTimedB cfgThroNoLead 0 State.initial (leakTrace.take 2) = true := by
  decide

/-- C3 counterexample: under `cfgDebLead` (debounce, `leading = true`) after
`dblTrace`, args `2` are pending (a new trailing call IS queued), yet `flush`
does not invoke the action (the log does not grow): `shouldSkipInvoke` is true
for every debounce + leading flush, not only when nothing is pending. -/
theorem c3_counterexample :
    dblState.pending = some ⟨2, 1⟩ ∧
    (flushOp cfgDebLead 3 false dblState).log = dblState.log ∧
    isPendingOp (flushOp cfgDebLead 3 false dblState) = false := by
  decide

/-- C3 as amended: when `pendingArgs` is non-empty, `flush` always clears both
timer refs and the pending args; it invokes the action with the pending args
and updates `lastInvokeTime` except in debounce mode with `leading = true`,
where it discards the pending args without invoking. -/
theorem c3_flush_behavior (c : Config) (s : State α) (now : Nat)
    (r : PendingRec α) (h : s.pending = some r) :
    (flushOp c now false s).pending = none ∧
    (flushOp c now false s).timeoutRef = none ∧
    (flushOp c now false s).maxWaitRef = none ∧
    (c.mode = DelayMode.debounce ∧ c.leading = true →
      (flushOp c now false s).log = s.log) ∧
    (¬(c.mode = DelayMode.debounce ∧ c.leading = true) →
      (flushOp c now false s).log = s.log ++ [⟨now, r.args, r.rid⟩] ∧
      (flushOp c now false s).lastInvokeTime = now) := by
  by_cases hsk : c.mode = DelayMode.debounce ∧ c.leading = true
  · cases hT : s.timeoutRef <;> cases hM : s.maxWaitRef <;>
      simp [flushOp, h, hT, hM, removeLive, hsk.1, hsk.2, hsk]
  · have hsk' : ((c.mode == DelayMode.debounce) && c.leading) = false := by
      rcases Bool.eq_false_or_eq_true c.leading with hl | hl
      · have hne : ¬ c.mode = DelayMode.debounce := by simpa [hl] using hsk
        simp [hl, beq_iff_eq, hne]
      · simp [hl]
    cases hT : s.timeoutRef <;> cases hM : s.maxWaitRef <;>
      simp [flushOp, h, hT, hM, removeLive, hsk', hsk]

/-- Witness for `c3_flush_behavior` at `dblState`, `now = 3`. -/
theorem c3_flush_behavior_witness :
    dblState.pending = some ⟨2, 1⟩ ∧
    ((flushOp cfgDebLead 3 false dblState).pending = none ∧
     (flushOp cfgDebLead 3 false dblState).timeoutRef = none ∧
     (flushOp cfgDebLead 3 false dblState).maxWaitRef = none ∧
     (cfgDebLead.mode = DelayMode.debounce ∧ cfgDebLead.leading = true →
       (flushOp cfgDebLead 3 false dblState).log = dblState.log) ∧
     (¬(cfgDebLead.mode = DelayMode.debounce ∧ cfgDebLead.leading = true) →
       (flushOp cfgDebLead 3 false dblState).log =
         dblState.log ++ [⟨3, 2, 1⟩] ∧
       (flushOp cfgDebLead 3 false dblState).lastInvokeTime = 3)) :=
  ⟨by decide, c3_flush_behavior cfgDebLead dblState 3 ⟨2, 1⟩ (by decide)⟩


/-- C5 counterexample: debounce with `leading = true` — a single call whose
action throws.  The action ran (it is logged) yet `pendingArgs` is still set
afterwards and no timer is live, so `isPending()` stays true forever unless a
later call supersedes it: the bookkeeping did NOT complete before the action
was called. -/
theorem c5_counterexample :
    (callOp cfgDebLead 0 1 true State.initial).log = [⟨0, 1, 0⟩] ∧
    (callOp cfgDebLead 0 1 true State.initial).pending = some ⟨1, 0⟩ ∧
    (callOp cfgDebLead 0 1 true State.initial).live = [] := by
  decide

/-- C5 as amended: only `flush` completes its bookkeeping before calling the
action — a throwing flush still leaves `pendingArgs` empty and both timer refs
null.  On every other invoking path (`invokeFunction`: leading edge, debounce
trailing timer, max-wait timer, throttle trailing timer) the action is called
before `pendingArgs` is cleared, so whenever the action throws during a
non-flush event, `pendingArgs` is left non-empty. -/
theorem c5_bookkeeping_order (c : Config) (s : State α) (e : Event α)
    (hthr : e.throwsB = true) (hlog : (step c s e).log ≠ s.log) :
    (e.isFlushB = true →
       (step c s e).pending = none ∧ (step c s e).timeoutRef = none ∧
       (step c s e).maxWaitRef = none) ∧
    (e.isFlushB = false → (step c s e).pending.isSome = true) := by
  cases e with
  | cancel t => simp [Event.throwsB] at hthr
  | flush t thr =>
    have ht : thr = true := by simpa [Event.throwsB] using hthr
    subst ht
    refine ⟨fun _ => ?_, fun hc => by simp [Event.isFlushB] at hc⟩
    cases hp : s.pending with
    | none => exact absurd (by simp [step, flushOp, hp]) hlog
    | some r =>
      by_cases hsk : ((c.mode == DelayMode.debounce) && c.leading) = true
      · refine absurd ?_ hlog
        cases hT : s.timeoutRef <;> cases hM : s.maxWaitRef <;>
          simp [step, flushOp, hp, hT, hM, hsk, removeLive]
      · have hsk' : ((c.mode == DelayMode.debounce) && c.leading) = false :=
          Bool.not_eq_true _ ▸ eq_false_of_ne_true hsk
        cases hT : s.timeoutRef <;> cases hM : s.maxWaitRef <;>
          simp [step, flushOp, hp, hT, hM, hsk', removeLive]
  | call t a thr =>
    have ht : thr = true := by simpa [Event.throwsB] using hthr
    subst ht
    refine ⟨fun hc => by simp [Event.isFlushB] at hc, fun _ => ?_⟩
    show (callOp c t a true s).pending.isSome = true
    cases hm : c.mode <;>
      simp [callOp, hm, handleDebounce_true_pending, handleThrottle_true_pending]
  | fire t i thr =>
    have ht : thr = true := by simpa [Event.throwsB] using hthr
    subst ht
    refine ⟨fun hc => by simp [Event.isFlushB] at hc, fun _ => ?_⟩
    show (fireOp c t i true s).pending.isSome = true
    cases hf : s.live.find? (fun tm => tm.id == i) with
    | none => exact absurd (by simp [step, fireOp, hf]) hlog
    | some tm =>
      obtain ⟨tid, tdue, tkind⟩ := tm
      cases hp : s.pending with
      | none =>
        refine absurd ?_ hlog
        cases tkind <;>
          simp [step, fireOp, hf, hp, invokeFn, removeLive]
      | some r =>
        cases tkind <;>
          simp [fireOp, hf, hp, invokeFn, removeLive]

/-- Witness for `c5_bookkeeping_order`: the throwing leading call of
`c5_counterexample`. -/
theorem c5_bookkeeping_order_witness :
    (Event.call 0 (1 : Nat) true).throwsB = true ∧
    (step cfgDebLead State.initial (Event.call 0 1 true)).log ≠
      (State.initial : State Nat).log ∧
    (((Event.call 0 (1 : Nat) true).isFlushB = true →
       (step cfgDebLead State.initial (Event.call 0 1 true)).pending = none ∧
       (step cfgDebLead State.initial (Event.call 0 1 true)).timeoutRef = none ∧
       (step cfgDebLead State.initial (Event.call 0 1 true)).maxWaitRef = none) ∧
     ((Event.call 0 (1 : Nat) true).isFlushB = false →
       (step cfgDebLead State.initial (Event.call 0 1 true)).pending.isSome = true)) :=
  ⟨by decide, by decide,
    c5_bookkeeping_order cfgDebLead State.initial (Event.call 0 1 true)
      (by decide) (by decide)⟩

/-- C8 counterexample: throttle `leading = true, delay = 5`; an invocation at
t = 10, `cancel` at t = 11, a call at t = 12.  The claim says the post-cancel
call is treated as a fresh window and fires immediately; in the code it does
not (the log still has only the t = 10 entry), because `useCancel` resets only
`lastCallTimeReference`, never `lastInvokeTimeReference`. -/
theorem c8_counterexample :
    (run cfgThroLead State.initial cancelTrace).log = [⟨10, 1, 0⟩] ∧
    (run cfgThroLead State.initial cancelTrace).lastInvokeTime = 10 ∧
    wellTimedB cfgThroLead 0 State.initial cancelTrace = true := by
  decide

/-- C8 as amended: `cancel` clears timers and pending args and resets
`lastCallTime` to 0, but it preserves `lastInvokeTime`; consequently a throttle
call issued within `delay` of the last actual invocation does not invoke
anything, even right after a `cancel`. -/
theorem c8_cancel_window (c : Config) (s : State α) (now : Nat) (a : α)
    (hmode : c.mode = DelayMode.throttle)
    (hle : s.lastInvokeTime ≤ now) (hw : now < s.lastInvokeTime + c.delay) :
    (cancelOp s).lastInvokeTime = s.lastInvokeTime ∧
    (cancelOp s).lastCallTime = 0 ∧
    (cancelOp s).pending = none ∧
    (callOp c now a false (cancelOp s)).log = (cancelOp s).log := by
  have hcan : (cancelOp s).lastInvokeTime = s.lastInvokeTime ∧
      (cancelOp s).lastCallTime = 0 ∧ (cancelOp s).pending = none := by
    cases hT : s.timeoutRef <;> cases hM : s.maxWaitRef <;>
      simp [cancelOp, hT, hM, removeLive]
  refine ⟨hcan.1, hcan.2.1, hcan.2.2, ?_⟩
  have helapsed : ¬ (c.delay ≤ now - (cancelOp s).lastInvokeTime) := by
    rw [hcan.1]
    omega
  cases hT2 : (cancelOp s).timeoutRef <;>
    cases htr : c.trailing <;>
      simp [callOp, hmode, handleThrottle, helapsed, hT2, htr, addTrailTimer,
        removeLive]

/-- Witness for `c8_cancel_window`: the state after the t = 10 invocation of
`cancelTrace`, with a call at t = 12. -/
theorem c8_cancel_window_witness :
    cfgThroLead.mode = DelayMode.throttle ∧
    (run cfgThroLead State.initial [Event.call 10 1 false]).lastInvokeTime ≤ 12 ∧
    12 < (run cfgThroLead State.initial [Event.call 10 1 false]).lastInvokeTime +
      cfgThroLead.delay ∧
    ((cancelOp (run cfgThroLead State.initial
        [Event.call 10 1 false])).lastInvokeTime =
      (run cfgThroLead State.initial [Event.call 10 1 false]).lastInvokeTime ∧
     (cancelOp (run cfgThroLead State.initial
        [Event.call 10 1 false])).lastCallTime = 0 ∧
     (cancelOp (run cfgThroLead State.initial
        [Event.call 10 1 false])).pending = none ∧
     (callOp cfgThroLead 12 2 false (cancelOp (run cfgThroLead State.initial
        [Event.call 10 1 false]))).log =
      (cancelOp (run cfgThroLead State.initial
        [Event.call 10 1 false])).log) :=
  ⟨by decide, by decide, by decide,
    c8_cancel_window cfgThroLead _ 12 2 (by decide) (by decide) (by decide)⟩

/-- C9 counterexample: throttle `leading = true, trailing = false, delay = 5`;
after an invocation at t = 10, the call at t = 12 is dropped — no timer is
live and no invocation will ever fire for it — yet `isPending()` is true,
because `useDelayedCallback` records every call in
`pendingArgumentsReference` before dispatching. -/
theorem c9_counterexample :
    isPendingOp (run cfgThroLeadNoTrail State.initial droppedTrace) = true ∧
    (run cfgThroLeadNoTrail State.initial droppedTrace).live = [] ∧
    wellTimedB cfgThroLeadNoTrail 0 State.initial droppedTrace = true := by
  decide

/-- C9 as amended: `isPending()` is true exactly while
`pendingArgumentsReference` is non-null, and a throttle call dropped inside the
window with `trailing = false` still records its args: afterwards `isPending()`
is true although no timer was scheduled, nothing was invoked, and both timer
refs are untouched. -/
theorem c9_dropped_call_pending (c : Config) (s : State α) (now : Nat) (a : α)
    (hmode : c.mode = DelayMode.throttle) (htr : c.trailing = false)
    (hle : s.lastInvokeTime ≤ now) (hw : now < s.lastInvokeTime + c.delay) :
    isPendingOp (callOp c now a false s) = true ∧
    (callOp c now a false s).live = s.live ∧
    (callOp c now a false s).log = s.log ∧
    (callOp c now a false s).timeoutRef = s.timeoutRef ∧
    (callOp c now a false s).maxWaitRef = s.maxWaitRef := by
  have helapsed : ¬ (c.delay ≤ now - s.lastInvokeTime) := by omega
  simp [callOp, hmode, handleThrottle, helapsed, htr, isPendingOp]

/-- Witness for `c9_dropped_call_pending`: the dropped t = 12 call of
`droppedTrace`. -/
theorem c9_dropped_call_pending_witness :
    cfgThroLeadNoTrail.mode = DelayMode.throttle ∧
    cfgThroLeadNoTrail.trailing = false ∧
    (run cfgThroLeadNoTrail State.initial
      [Event.call 10 1 false]).lastInvokeTime ≤ 12 ∧
    12 < (run cfgThroLeadNoTrail State.initial
      [Event.call 10 1 false]).lastInvokeTime + cfgThroLeadNoTrail.delay ∧
    isPendingOp (callOp cfgThroLeadNoTrail 12 2 false
      (run cfgThroLeadNoTrail State.initial [Event.call 10 1 false])) = true :=
  ⟨by decide, by decide, by decide, by decide,
    (c9_dropped_call_pending cfgThroLeadNoTrail _ 12 2
      (by decide) (by decide) (by decide) (by decide)).1⟩

/-- C10 at the level of a single step: in debounce mode no operation reads
`config.trailing`, so steps under `trailing = b` and `trailing = b'` coincide. -/
theorem step_debounce_trailing_irrelevant (d : Nat) (l : Bool) (mw : Option Nat)
    (b b' : Bool) (s : State α) (e : Event α) :
    step ⟨DelayMode.debounce, d, l, b, mw⟩ s e =
      step ⟨DelayMode.debounce, d, l, b', mw⟩ s e := rfl

/-- C10: in debounce mode the invoker's behavior is independent of the
`trailing` flag — for every start state and every event trace, the runs under
`trailing = true` and `trailing = false` produce identical states (hence
identical action invocations, times and argument tuples). -/
theorem c10_debounce_ignores_trailing (d : Nat) (l : Bool) (mw : Option Nat)
    (s : State α) (es : List (Event α)) :
    run ⟨DelayMode.debounce, d, l, true, mw⟩ s es =
      run ⟨DelayMode.debounce, d, l, false, mw⟩ s es := by
  induction es generalizing s with
  | nil => rfl
  | cons e es ih =>
    simpa [run, step_debounce_trailing_irrelevant d l mw true false s e] using
      ih (step ⟨DelayMode.debounce, d, l, false, mw⟩ s e)


/-! ### Debounce-mode timer-kind invariant and the coalescing theorem (C1) -/

theorem run_cons (c : Config) (s : State α) (e : Event α) (es : List (Event α)) :
    run c s (e :: es) = run c (step c s e) es := rfl

theorem removeLive_live (s : State α) (i : Nat) :
    (removeLive s i).live = s.live.filter (fun tm => tm.id != i) := rfl

theorem DebKinds_removeLive {s : State α} (i : Nat) (h : DebKinds s) :
    DebKinds (removeLive s i) := by
  intro tm htm
  rw [removeLive_live] at htm
  exact h tm (List.mem_filter.mp htm).1

theorem invokeFn_live (now : Nat) (thr : Bool) (s : State α) :
    ((invokeFn now thr s).1).live = s.live := by
  cases h : s.pending <;> cases thr <;> simp [invokeFn, h]

theorem invokeFn_noThrow_snd (now : Nat) (s : State α) :
    (invokeFn now false s).2 = false := by
  cases hp : s.pending <;> simp [invokeFn, hp]

theorem DebKinds_debounceSchedule (c : Config) (now : Nat) {s : State α}
    (h : DebKinds s) : DebKinds (debounceSchedule c now s) := by
  intro tm htm
  simp only [debounceSchedule] at htm
  split at htm
  · simp only [addMaxWaitTimer, addTrailTimer, List.mem_append,
      List.mem_singleton] at htm
    rcases htm with (htm | rfl) | rfl
    · exact h tm htm
    · simp
    · simp
  · simp only [addTrailTimer, List.mem_append, List.mem_singleton] at htm
    rcases htm with htm | rfl
    · exact h tm htm
    · simp

theorem DebKinds_handleDebounce (c : Config) (now : Nat) (thr : Bool)
    {s : State α} (h : DebKinds s) : DebKinds (handleDebounce c now thr s) := by
  have h2 : DebKinds (match s.timeoutRef with
      | some i => removeLive s i
      | none => s) := by
    cases hT : s.timeoutRef
    · simpa [hT] using h
    · simpa [hT] using DebKinds_removeLive _ h
  simp only [handleDebounce]
  split
  · split
    · next s' hEq =>
      intro tm htm
      have hl : s'.live = (match s.timeoutRef with
          | some i => removeLive s i
          | none => s).live := by
        have := congrArg (fun p => (p.1).live) hEq
        simpa [invokeFn_live] using this.symm
      exact h2 tm (hl ▸ htm)
    · next s' hEq =>
      refine DebKinds_debounceSchedule c now ?_
      intro tm htm
      have hl : s'.live = (match s.timeoutRef with
          | some i => removeLive s i
          | none => s).live := by
        have := congrArg (fun p => (p.1).live) hEq
        simpa [invokeFn_live] using this.symm
      exact h2 tm (by simpa [hl] using htm)
  · exact DebKinds_debounceSchedule c now h2

theorem cancelOp_live_subset {s : State α} {tm : Timer}
    (htm : tm ∈ (cancelOp s).live) : tm ∈ s.live := by
  cases hT : s.timeoutRef <;> cases hM : s.maxWaitRef <;>
    simp [cancelOp, hT, hM, removeLive, List.mem_filter] at htm <;>
    tauto

theorem DebKinds_cancelOp {s : State α} (h : DebKinds s) :
    DebKinds (cancelOp s) := fun tm htm => h tm (cancelOp_live_subset htm)

theorem flushOp_live_subset {c : Config} {s : State α} {now : Nat} {thr : Bool}
    {tm : Timer} (htm : tm ∈ (flushOp c now thr s).live) : tm ∈ s.live := by
  cases hp : s.pending with
  | none => simpa [flushOp, hp] using htm
  | some r =>
    by_cases hsk : ((c.mode == DelayMode.debounce) && c.leading) = true <;>
      cases hT : s.timeoutRef <;> cases hM : s.maxWaitRef <;> cases thr <;>
        simp [flushOp, hp, hT, hM, hsk, removeLive, List.mem_filter] at htm <;>
        tauto

theorem fireOp_live_subset {c : Config} {s : State α} {tf i : Nat} {thr : Bool}
    {tm : Timer} (htm : tm ∈ (fireOp c tf i thr s).live) : tm ∈ s.live := by
  cases hf : s.live.find? (fun t0 => t0.id == i) with
  | none => simpa [fireOp, hf] using htm
  | some t0 =>
    obtain ⟨tid, tdue, tkind⟩ := t0
    cases tkind <;> cases hp : s.pending <;> cases thr <;>
      cases hl : c.leading <;>
        simp [fireOp, hf, hp, hl, invokeFn, removeLive, List.mem_filter] at htm <;>
        tauto

theorem DebKinds_step (c : Config) (hm : c.mode = DelayMode.debounce)
    (s : State α) (e : Event α) (h : DebKinds s) : DebKinds (step c s e) := by
  cases e with
  | call t a thr =>
    simp only [step, callOp, hm]
    exact DebKinds_handleDebounce c t thr (fun tm htm => h tm htm)
  | fire t i thr => exact fun tm htm => h tm (fireOp_live_subset htm)
  | cancel t => exact DebKinds_cancelOp h
  | flush t thr => exact fun tm htm => h tm (flushOp_live_subset htm)

theorem DebKinds_run (c : Config) (hm : c.mode = DelayMode.debounce)
    (es : List (Event α)) : ∀ s : State α, DebKinds s → DebKinds (run c s es) := by
  induction es with
  | nil => exact fun s h => h
  | cons e es ih => exact fun s h => ih (step c s e) (DebKinds_step c hm s e h)

theorem handleDebounce_pending_cases (c : Config) (now : Nat) (thr : Bool)
    (s : State α) :
    (handleDebounce c now thr s).pending = none ∨
    (handleDebounce c now thr s).pending = s.pending := by
  cases hT : s.timeoutRef <;> cases hl : c.leading <;>
    simp [handleDebounce, hT, hl, debounceSchedule_pending, removeLive] <;>
    cases hp : s.pending <;> cases thr <;>
      simp [invokeFn, hp, debounceSchedule_pending]

theorem handleThrottle_pending_cases (c : Config) (now : Nat) (thr : Bool)
    (s : State α) :
    (handleThrottle c now thr s).pending = none ∨
    (handleThrottle c now thr s).pending = s.pending := by
  simp only [handleThrottle]
  split
  · split
    · cases hp : s.pending <;> cases thr <;> simp [invokeFn, hp]
    · split <;> simp
  · split
    · cases hT : s.timeoutRef <;> simp [hT, addTrailTimer, removeLive]
    · simp

theorem callOp_pending_cases (c : Config) (now : Nat) (a : α) (thr : Bool)
    (s : State α) :
    (callOp c now a thr s).pending = none ∨
    (callOp c now a thr s).pending = some ⟨a, s.nextRid⟩ := by
  cases hm : c.mode with
  | debounce =>
    have h := handleDebounce_pending_cases c now thr
      { s with pending := some ⟨a, s.nextRid⟩, nextRid := s.nextRid + 1, lastCallTime := now }
    simp only [callOp, hm]
    simpa using h
  | throttle =>
    have h := handleThrottle_pending_cases c now thr
      { s with pending := some ⟨a, s.nextRid⟩, nextRid := s.nextRid + 1, lastCallTime := now }
    simp only [callOp, hm]
    simpa using h

theorem firesOnly_cons {e : Event α} {fs : List (Event α)}
    (h : firesOnly (e :: fs) = true) :
    (e.isFireB && !e.throwsB) = true ∧ firesOnly fs = true := by
  simpa [firesOnly, List.all_cons] using h

theorem debounce_fires_none (c : Config) :
    ∀ (fs : List (Event α)) (s : State α), firesOnly fs = true → DebKinds s →
      s.pending = none →
      (run c s fs).log = s.log ∧ (run c s fs).pending = none := by
  intro fs
  induction fs with
  | nil => exact fun s _ _ hp => ⟨rfl, hp⟩
  | cons e fs ih =>
    intro s hall hk hp
    obtain ⟨he, hfs⟩ := firesOnly_cons hall
    cases e with
    | call t a thr => simp [Event.isFireB] at he
    | cancel t => simp [Event.isFireB] at he
    | flush t thr => simp [Event.isFireB] at he
    | fire t i thr =>
      have hthr : thr = false := by
        simpa [Event.isFireB, Event.throwsB] using he
      subst hthr
      have key : (fireOp c t i false s).log = s.log ∧
          (fireOp c t i false s).pending = none := by
        cases hf : s.live.find? (fun t0 => t0.id == i) with
        | none => simp [fireOp, hf, hp]
        | some t0 =>
          obtain ⟨tid, tdue, tkind⟩ := t0
          have hkind : Timer.mk tid tdue tkind ∈ s.live :=
            List.mem_of_find?_eq_some hf
          cases tkind with
          | debTrail =>
            cases hl : c.leading <;>
              simp [fireOp, hf, hp, hl, invokeFn, removeLive]
          | throTrail => exact absurd rfl (hk _ hkind)
          | maxW => simp [fireOp, hf, hp, invokeFn, removeLive]
      have hk' : DebKinds (fireOp c t i false s) :=
        fun tm htm => hk tm (fireOp_live_subset htm)
      have hrest := ih (fireOp c t i false s) hfs hk' key.2
      rw [run_cons]
      exact ⟨by rw [show step c s (Event.fire t i false) = fireOp c t i false s from rfl,
          hrest.1, key.1], by
        rw [show step c s (Event.fire t i false) = fireOp c t i false s from rfl,
          hrest.2]⟩

theorem debounce_fires_some (c : Config) :
    ∀ (fs : List (Event α)) (s : State α) (r : PendingRec α),
      firesOnly fs = true → DebKinds s → s.pending = some r →
      (run c s fs).log = s.log ∨
      ∃ t, (run c s fs).log = s.log ++ [⟨t, r.args, r.rid⟩] := by
  intro fs
  induction fs with
  | nil => exact fun s r _ _ _ => Or.inl rfl
  | cons e fs ih =>
    intro s r hall hk hp
    obtain ⟨he, hfs⟩ := firesOnly_cons hall
    cases e with
    | call t a thr => simp [Event.isFireB] at he
    | cancel t => simp [Event.isFireB] at he
    | flush t thr => simp [Event.isFireB] at he
    | fire t i thr =>
      have hthr : thr = false := by
        simpa [Event.isFireB, Event.throwsB] using he
      subst hthr
      rw [run_cons, show step c s (Event.fire t i false) = fireOp c t i false s from rfl]
      cases hf : s.live.find? (fun t0 => t0.id == i) with
      | none =>
        have hid : fireOp c t i false s = s := by simp [fireOp, hf]
        rw [hid]
        exact ih s r hfs hk hp
      | some t0 =>
        obtain ⟨tid, tdue, tkind⟩ := t0
        have hkind : Timer.mk tid tdue tkind ∈ s.live :=
          List.mem_of_find?_eq_some hf
        have hk' : DebKinds (fireOp c t i false s) :=
          fun tm htm => hk tm (fireOp_live_subset htm)
        cases tkind with
        | throTrail => exact absurd rfl (hk _ hkind)
        | debTrail =>
          have key : (fireOp c t i false s).log = s.log ++ [⟨t, r.args, r.rid⟩] ∧
              (fireOp c t i false s).pending = none := by
            cases hl : c.leading <;>
              simp [fireOp, hf, hp, hl, invokeFn, removeLive]
          have hrest := debounce_fires_none c fs (fireOp c t i false s) hfs hk' key.2
          exact Or.inr ⟨t, by rw [hrest.1, key.1]⟩
        | maxW =>
          have key : (fireOp c t i false s).log = s.log ++ [⟨t, r.args, r.rid⟩] ∧
              (fireOp c t i false s).pending = none := by
            simp [fireOp, hf, hp, invokeFn, removeLive]
          have hrest := debounce_fires_none c fs (fireOp c t i false s) hfs hk' key.2
          exact Or.inr ⟨t, by rw [hrest.1, key.1]⟩

/-- C1: debounce coalescing.  For any debounce configuration, any burst of
calls whose consecutive call times are strictly less than `delay` apart
(ending with the call at `tk` with args `ak`), and any subsequent throw-free
sequence of timer firings, at most one further invocation of the action occurs
after the last call, and if one occurs it carries the argument tuple `ak` of
the last call. -/
theorem c1_debounce_coalescing (c : Config) (hm : c.mode = DelayMode.debounce)
    (pre : List (Event α)) (tk : Nat) (ak : α) (fs : List (Event α))
    (hf : firesOnly fs = true)
    (hgaps : gapsLt c.delay (pre ++ [Event.call tk ak false])) :
    (run c (run c State.initial (pre ++ [Event.call tk ak false])) fs).log =
      (run c State.initial (pre ++ [Event.call tk ak false])).log ∨
    ∃ t rid,
      (run c (run c State.initial (pre ++ [Event.call tk ak false])) fs).log =
        (run c State.initial (pre ++ [Event.call tk ak false])).log ++
          [⟨t, ak, rid⟩] := by
  have hk1 : DebKinds (run c State.initial (pre ++ [Event.call tk ak false])) :=
    DebKinds_run c hm _ State.initial (by intro tm htm; simp [State.initial] at htm)
  have hsplit : run c State.initial (pre ++ [Event.call tk ak false]) =
      callOp c tk ak false (run c State.initial pre) := by
    rw [run_append]; rfl
  rcases callOp_pending_cases c tk ak false (run c State.initial pre) with hnone | hsome
  · exact Or.inl (debounce_fires_none c fs _ hf hk1 (by rw [hsplit]; exact hnone)).1
  · rcases debounce_fires_some c fs _ ⟨ak, (run c State.initial pre).nextRid⟩ hf hk1
      (by rw [hsplit]; exact hsome) with h | ⟨t, h⟩
    · exact Or.inl h
    · exact Or.inr ⟨t, (run c State.initial pre).nextRid, h⟩

/-- Witness for `c1_debounce_coalescing`: a single call at t = 0 under
`cfgDebLead` followed by the trailing timer firing at t = 5. -/
theorem c1_debounce_coalescing_witness :
    firesOnly ([Event.fire 5 0 false] : List (Event Nat)) = true ∧
    gapsLt cfgDebLead.delay ([] ++ [Event.call 0 (1 : Nat) false]) ∧
    ((run cfgDebLead (run cfgDebLead State.initial
        ([] ++ [Event.call 0 1 false])) [Event.fire 5 0 false]).log =
      (run cfgDebLead State.initial ([] ++ [Event.call 0 1 false])).log ∨
    ∃ t rid,
      (run cfgDebLead (run cfgDebLead State.initial
          ([] ++ [Event.call 0 1 false])) [Event.fire 5 0 false]).log =
        (run cfgDebLead State.initial ([] ++ [Event.call 0 1 false])).log ++
          [⟨t, 1, rid⟩]) :=
  ⟨by decide, by simp [gapsLt, callTimes],
    c1_debounce_coalescing cfgDebLead rfl [] 0 1 [Event.fire 5 0 false]
      (by decide) (by simp [gapsLt, callTimes])⟩


/-! ### Recording-id invariant and the pending-lifecycle theorem (C6) -/

theorem ridInv_of_same (s s' : State α) (hlog : s'.log = s.log)
    (hp : s'.pending = s.pending) (hn : s'.nextRid = s.nextRid)
    (h : RidInv s) : RidInv s' := by
  obtain ⟨h1, h2, h3⟩ := h
  exact ⟨by rw [hlog, hn]; exact h1, by rw [hlog]; exact h2,
    fun r hr => by rw [hlog, hn]; exact h3 r (hp ▸ hr)⟩

theorem ridInv_drop (s s' : State α) (hlog : s'.log = s.log)
    (hp : s'.pending = none) (hn : s'.nextRid = s.nextRid)
    (h : RidInv s) : RidInv s' := by
  obtain ⟨h1, h2, h3⟩ := h
  refine ⟨by rw [hlog, hn]; exact h1, by rw [hlog]; exact h2, fun r hr => ?_⟩
  rw [hp] at hr
  cases hr

theorem ridInv_consume {s s' : State α} {r : PendingRec α} (now : Nat)
    (hp : s.pending = some r)
    (hlog : s'.log = s.log ++ [⟨now, r.args, r.rid⟩])
    (hp' : s'.pending = none) (hn : s'.nextRid = s.nextRid)
    (h : RidInv s) : RidInv s' := by
  obtain ⟨h1, h2, h3⟩ := h
  obtain ⟨hr1, hr2⟩ := h3 r hp
  refine ⟨?_, ?_, fun r' hr' => ?_⟩
  · rw [hlog, hn]
    intro e he
    rcases List.mem_append.mp he with he | he
    · exact h1 e he
    · rcases List.mem_singleton.mp he with rfl
      exact hr1
  · rw [hlog]
    refine List.pairwise_append.mpr ⟨h2, List.pairwise_singleton _ _, ?_⟩
    intro x hx y hy
    rcases List.mem_singleton.mp hy with rfl
    exact hr2 x hx
  · rw [hp'] at hr'
    cases hr'

theorem ridInv_record {s : State α} (now : Nat) (a : α) (h : RidInv s) :
    RidInv ({ s with pending := some ⟨a, s.nextRid⟩, nextRid := s.nextRid + 1, lastCallTime := now } : State α) := by
  obtain ⟨h1, h2, h3⟩ := h
  refine ⟨fun e he => Nat.lt_succ_of_lt (h1 e he), h2, fun r hr => ?_⟩
  obtain rfl : (⟨a, s.nextRid⟩ : PendingRec α) = r := by
    simpa using hr
  exact ⟨Nat.lt_succ_self _, fun e he => h1 e he⟩

theorem ridInv_invokeFn (now : Nat) {s : State α} (h : RidInv s) :
    RidInv ((invokeFn now false s).1) := by
  cases hp : s.pending with
  | none =>
    refine ridInv_of_same _ _ ?_ ?_ ?_ h <;> simp [invokeFn, hp]
  | some r =>
    refine ridInv_consume now hp ?_ ?_ ?_ h <;> simp [invokeFn, hp]

theorem ridInv_debounceSchedule (c : Config) (now : Nat) {s : State α}
    (h : RidInv s) : RidInv (debounceSchedule c now s) := by
  refine ridInv_of_same _ _ ?_ ?_ ?_ h <;>
    (simp only [debounceSchedule]; split <;> rfl)

theorem ridInv_handleDebounce (c : Config) (now : Nat) {s : State α}
    (h : RidInv s) : RidInv (handleDebounce c now false s) := by
  cases hT : s.timeoutRef with
  | some i =>
    simp only [handleDebounce, hT, Option.isNone_some, Bool.and_false,
      Bool.false_eq_true, if_false]
    exact ridInv_debounceSchedule c now (ridInv_of_same _ _ rfl rfl rfl h)
  | none =>
    cases hl : c.leading with
    | false =>
      simp only [handleDebounce, hT, hl, Option.isNone_none, Bool.false_and,
        Bool.false_eq_true, if_false]
      exact ridInv_debounceSchedule c now h
    | true =>
      simp only [handleDebounce, hT, hl, Option.isNone_none, Bool.and_self,
        if_true]
      cases hp : s.pending with
      | none =>
        rw [invokeFn_pending_none now false s hp]
        exact ridInv_debounceSchedule c now
          (ridInv_drop s { s with pending := none } rfl rfl rfl h)
      | some r =>
        have hred : invokeFn now false s =
            ({ s with log := s.log ++ [⟨now, r.args, r.rid⟩], lastInvokeTime := now, pending := none }, false) := by
          simp [invokeFn, hp]
        rw [hred]
        exact ridInv_debounceSchedule c now
          (ridInv_consume now hp rfl rfl rfl h)

theorem ridInv_handleThrottle (c : Config) (now : Nat) {s : State α}
    (h : RidInv s) : RidInv (handleThrottle c now false s) := by
  simp only [handleThrottle]
  split
  · split
    · exact ridInv_invokeFn now h
    · split
      · exact ridInv_of_same _ _ rfl rfl rfl h
      · exact h
  · split
    · cases hT : s.timeoutRef <;> simp only [hT] <;>
        exact ridInv_of_same _ _ rfl rfl rfl h
    · exact h

theorem ridInv_callOp (c : Config) (now : Nat) (a : α) {s : State α}
    (h : RidInv s) : RidInv (callOp c now a false s) := by
  cases hm : c.mode with
  | debounce =>
    simp only [callOp, hm]
    exact ridInv_handleDebounce c now (ridInv_record now a h)
  | throttle =>
    simp only [callOp, hm]
    exact ridInv_handleThrottle c now (ridInv_record now a h)

theorem ridInv_cancelOp {s : State α} (h : RidInv s) : RidInv (cancelOp s) := by
  refine ridInv_drop _ _ ?_ ?_ ?_ h <;>
    (cases hT : s.timeoutRef <;> cases hM : s.maxWaitRef <;>
      simp [cancelOp, hT, hM, removeLive])

theorem ridInv_flushOp (c : Config) (now : Nat) {s : State α}
    (h : RidInv s) : RidInv (flushOp c now false s) := by
  cases hp : s.pending with
  | none =>
    refine ridInv_of_same _ _ ?_ ?_ ?_ h <;> simp [flushOp, hp]
  | some r =>
    by_cases hsk : ((c.mode == DelayMode.debounce) && c.leading) = true
    · refine ridInv_drop _ _ ?_ ?_ ?_ h <;>
        (cases hT : s.timeoutRef <;> cases hM : s.maxWaitRef <;>
          simp [flushOp, hp, hT, hM, hsk, removeLive])
    · have hsk' : ((c.mode == DelayMode.debounce) && c.leading) = false :=
        Bool.not_eq_true _ ▸ eq_false_of_ne_true hsk
      refine ridInv_consume now hp ?_ ?_ ?_ h <;>
        (cases hT : s.timeoutRef <;> cases hM : s.maxWaitRef <;>
          simp [flushOp, hp, hT, hM, hsk', removeLive])

theorem ridInv_fireOp (c : Config) (tf i : Nat) {s : State α}
    (h : RidInv s) : RidInv (fireOp c tf i false s) := by
  cases hf : s.live.find? (fun t0 => t0.id == i) with
  | none =>
    refine ridInv_of_same _ _ ?_ ?_ ?_ h <;> simp [fireOp, hf]
  | some t0 =>
    obtain ⟨tid, tdue, tkind⟩ := t0
    cases tkind with
    | debTrail =>
      simp only [fireOp, hf]
      split
      · exact ridInv_invokeFn tf (ridInv_of_same _ _ rfl rfl rfl h)
      · exact ridInv_of_same _ _ rfl rfl rfl h
    | throTrail =>
      simp only [fireOp, hf]
      split
      · split
        · next s2 hEq =>
          exfalso
          have h2 := congrArg Prod.snd hEq
          simp [invokeFn_noThrow_snd] at h2
        · next s2 hEq =>
          have hs2 : s2 = (invokeFn tf false (removeLive s i)).1 := by rw [hEq]
          refine ridInv_of_same _ { s2 with timeoutRef := none } ?_ ?_ ?_
            (ridInv_invokeFn tf (ridInv_of_same s (removeLive s i) rfl rfl rfl h))
          · rw [hs2]
          · rw [hs2]
          · rw [hs2]
      · exact ridInv_of_same _ _ rfl rfl rfl h
    | maxW =>
      simp only [fireOp, hf]
      exact ridInv_invokeFn tf
        (ridInv_of_same s { removeLive s i with maxWaitRef := none }
          rfl rfl rfl h)

theorem ridInv_step (c : Config) (s : State α) (e : Event α)
    (hth : e.throwsB = false) (h : RidInv s) : RidInv (step c s e) := by
  cases e with
  | call t a thr =>
    obtain rfl : thr = false := by simpa [Event.throwsB] using hth
    exact ridInv_callOp c t a h
  | fire t i thr =>
    obtain rfl : thr = false := by simpa [Event.throwsB] using hth
    exact ridInv_fireOp c t i h
  | cancel t => exact ridInv_cancelOp h
  | flush t thr =>
    obtain rfl : thr = false := by simpa [Event.throwsB] using hth
    exact ridInv_flushOp c t h

theorem ridInv_initial : RidInv (State.initial : State α) := by
  refine ⟨?_, ?_, ?_⟩ <;> simp [State.initial, RidInv]

theorem ridInv_run (c : Config) :
    ∀ (es : List (Event α)) (s : State α), throwFree es = true → RidInv s →
      RidInv (run c s es) := by
  intro es
  induction es with
  | nil => exact fun s _ h => h
  | cons e es ih =>
    intro s hall h
    obtain ⟨he, hes⟩ : (!e.throwsB) = true ∧ throwFree es = true := by
      simpa [throwFree, List.all_cons] using hall
    exact ih (step c s e) hes (ridInv_step c s e (by simpa using he) h)

theorem pending_clear_classified (c : Config) (s : State α) (e : Event α)
    (r : PendingRec α) (hthr : e.throwsB = false) (hcall : e.isCallB = false)
    (hp : s.pending = some r) (hclr : (step c s e).pending = none) :
    e.isCancelB = true ∨ e.isFlushB = true ∨
      (step c s e).log = s.log ++ [⟨e.time, r.args, r.rid⟩] := by
  cases e with
  | call t a thr => simp [Event.isCallB] at hcall
  | cancel t => exact Or.inl rfl
  | flush t thr => exact Or.inr (Or.inl rfl)
  | fire t i thr =>
    obtain rfl : thr = false := by simpa [Event.throwsB] using hthr
    refine Or.inr (Or.inr ?_)
    cases hf : s.live.find? (fun t0 => t0.id == i) with
    | none =>
      exfalso
      have hsame : (step c s (Event.fire t i false)).pending = some r := by
        simp [step, fireOp, hf, hp]
      rw [hclr] at hsame
      cases hsame
    | some t0 =>
      obtain ⟨tid, tdue, tkind⟩ := t0
      cases tkind with
      | debTrail =>
        cases hl : c.leading <;>
          simp [step, fireOp, hf, hp, hl, invokeFn, removeLive, Event.time]
      | throTrail =>
        simp [step, fireOp, hf, hp, invokeFn, removeLive, Event.time]
      | maxW =>
        simp [step, fireOp, hf, hp, invokeFn, removeLive, Event.time]

/-- C6 as amended: in throw-free executions from a fresh invoker, the
recording ids of the logged action calls are strictly increasing — the action
is never invoked twice with the same recorded pending tuple; and on every
non-call event that empties `pendingArgs`, the recording is either discarded
by `cancel`, handled by `flush` (which in debounce + leading mode discards it
without invoking), or consumed by an invocation of the action with exactly
that tuple.  (Call events overwrite `pendingArgs` rather than clearing it.) -/
theorem c6_pending_lifecycle (c : Config) :
    (∀ es : List (Event α), throwFree es = true →
       List.Pairwise (fun x y => x.rid < y.rid) (run c State.initial es).log) ∧
    (∀ (s : State α) (e : Event α) (r : PendingRec α),
       e.throwsB = false → e.isCallB = false → s.pending = some r →
       (step c s e).pending = none →
       e.isCancelB = true ∨ e.isFlushB = true ∨
         (step c s e).log = s.log ++ [⟨e.time, r.args, r.rid⟩]) :=
  ⟨fun es hes => (ridInv_run c es State.initial hes ridInv_initial).2.1,
   fun s e r h1 h2 h3 h4 => pending_clear_classified c s e r h1 h2 h3 h4⟩

/-- C6 counterexample to the claim as stated: under `cfgDebLead` after
`dblTrace`, args `2` (recording id 1) are pending; `flush` at t = 3 clears
`pendingArgs` without invoking the action (the log is unchanged) and without
`cancel` being called — so pending args are NOT cleared exactly at invocation
or cancel. -/
theorem c6_counterexample :
    dblState.pending = some ⟨2, 1⟩ ∧
    (flushOp cfgDebLead 3 false dblState).pending = none ∧
    (flushOp cfgDebLead 3 false dblState).log = dblState.log ∧
    (Event.flush 3 false : Event Nat).isCancelB = false := by
  decide

/-- Witness for `c6_pending_lifecycle`: the throw-free trace `dblTrace` under
`cfgDebLead` has strictly increasing recording ids in its log. -/
theorem c6_pending_lifecycle_witness :
    throwFree dblTrace = true ∧
    List.Pairwise (fun x y => x.rid < y.rid)
      (run cfgDebLead State.initial dblTrace).log :=
  ⟨by decide, (c6_pending_lifecycle cfgDebLead).1 dblTrace (by decide)⟩


/-! ### Max-wait burst analysis (C7) -/

theorem burst_first_call (d W t1 : Nat) (l tr : Bool) (hW : W ≠ 0) (a : α) :
    callOp (cfgW d W l tr) t1 a false State.initial =
      firstState d W t1 a l := by
  cases l <;>
    simp [callOp, cfgW, handleDebounce, State.initial, firstState, invokeFn,
      debounceSchedule, addTrailTimer, addMaxWaitTimer, removeLive,
      maxWaitEnabled, maxWaitVal, bne_iff_ne, hW]

theorem burst_second_call (d W t1 t : Nat) (l tr : Bool) (a b : α) :
    callOp (cfgW d W l tr) t b false (firstState d W t1 a l) =
      burstMid d W t1 2 t b 1 3
        [⟨1, t1 + W, TimerKind.maxW⟩, ⟨2, t + d, TimerKind.debTrail⟩]
        (cond l t1 0) (cond l [⟨t1, a, 0⟩] []) := by
  cases l <;>
    simp [callOp, cfgW, handleDebounce, firstState, burstMid, debounceSchedule,
      addTrailTimer, removeLive, maxWaitEnabled]

theorem burst_call_step (d W t1 u tu t n j : Nat) (l tr : Bool) (a b : α)
    (liv : List Timer) (li : Nat) (lg : List (ActionCall α))
    (hliv : liv = [⟨u, tu + d, TimerKind.debTrail⟩, ⟨1, t1 + W, TimerKind.maxW⟩] ∨
            liv = [⟨1, t1 + W, TimerKind.maxW⟩, ⟨u, tu + d, TimerKind.debTrail⟩])
    (hu : u ≠ 1) :
    callOp (cfgW d W l tr) t b false (burstMid d W t1 u tu a j n liv li lg) =
      burstMid d W t1 n t b (j + 1) (n + 1)
        [⟨1, t1 + W, TimerKind.maxW⟩, ⟨n, t + d, TimerKind.debTrail⟩] li lg := by
  have hu1 : (1 : Nat) ≠ u := Ne.symm hu
  rcases hliv with rfl | rfl <;>
    simp [callOp, cfgW, handleDebounce, burstMid, debounceSchedule, addTrailTimer,
      removeLive, maxWaitEnabled, bne_iff_ne, hu1]

theorem burst_fire_log (d W t1 u tu : Nat) (l tr : Bool) (a : α) (j n : Nat)
    (liv : List Timer) (li : Nat) (lg : List (ActionCall α))
    (hliv : liv = [⟨u, tu + d, TimerKind.debTrail⟩, ⟨1, t1 + W, TimerKind.maxW⟩] ∨
            liv = [⟨1, t1 + W, TimerKind.maxW⟩, ⟨u, tu + d, TimerKind.debTrail⟩])
    (hu : u ≠ 1) :
    (fireOp (cfgW d W l tr) (t1 + W) 1 false
        (burstMid d W t1 u tu a j n liv li lg)).log = lg ++ [⟨t1 + W, a, j⟩] := by
  have hbe : (u == 1) = false := by simpa using hu
  rcases hliv with rfl | rfl <;>
    simp [fireOp, burstMid, List.find?, hbe, invokeFn, removeLive]

theorem burst_run (d W t1 : Nat) (l tr : Bool) (li : Nat)
    (lg : List (ActionCall α)) :
    ∀ (rest : List (Nat × α)) (u tu n j : Nat) (a : α) (liv : List Timer),
      (liv = [⟨u, tu + d, TimerKind.debTrail⟩, ⟨1, t1 + W, TimerKind.maxW⟩] ∨
       liv = [⟨1, t1 + W, TimerKind.maxW⟩, ⟨u, tu + d, TimerKind.debTrail⟩]) →
      u ≠ 1 → 1 < n →
      List.Chain (fun p q => p.1 < q.1 ∧ q.1 < p.1 + d) (tu, a) rest →
      (∀ p ∈ rest, p.1 ≤ t1 + W) →
      tu ≤ t1 + W →
      t1 + W < (rest.getLastD (tu, a)).1 + d →
      (run (cfgW d W l tr) (burstMid d W t1 u tu a j n liv li lg)
          (burstEvents rest ++ [Event.fire (t1 + W) 1 false])).log =
        lg ++ [⟨t1 + W, (rest.getLastD (tu, a)).2, j + rest.length⟩] ∧
      wellTimedB (cfgW d W l tr) tu (burstMid d W t1 u tu a j n liv li lg)
        (burstEvents rest ++ [Event.fire (t1 + W) 1 false]) = true := by
  intro rest
  induction rest with
  | nil =>
    intro u tu n j a liv hliv hu hn hchain hupto htu hend
    have hbe : (u == 1) = false := by simpa using hu
    refine ⟨?_, ?_⟩
    · show (run (cfgW d W l tr) _ [Event.fire (t1 + W) 1 false]).log = _
      rw [run_cons]
      simpa [run] using burst_fire_log d W t1 u tu l tr a j n liv li lg hliv hu
    · simp only [List.getLastD] at hend
      rcases hliv with rfl | rfl <;>
        simp [wellTimedB, burstEvents, Event.time, burstMid, step, fireOp,
          List.find?, hbe, invokeFn, removeLive, htu, hend, Nat.le_of_lt hend]
  | cons p rest' ih =>
    obtain ⟨t, b⟩ := p
    intro u tu n j a liv hliv hu hn hchain hupto htu hend
    obtain ⟨⟨h1, h2⟩, hchain'⟩ := List.chain_cons.mp hchain
    have hstep := burst_call_step d W t1 u tu t n j l tr a b liv li lg hliv hu
    have htW : t ≤ t1 + W := hupto (t, b) (by simp)
    have hend' : t1 + W < (rest'.getLastD (t, b)).1 + d := by
      rwa [List.getLastD_cons] at hend
    have hrest := ih n t (n + 1) (j + 1) b
      [⟨1, t1 + W, TimerKind.maxW⟩, ⟨n, t + d, TimerKind.debTrail⟩]
      (Or.inr rfl) (by omega) (by omega) hchain'
      (fun q hq => hupto q (List.mem_cons_of_mem _ hq)) htW hend'
    have hev : burstEvents ((t, b) :: rest') ++ [Event.fire (t1 + W) 1 false] =
        Event.call t b false ::
          (burstEvents rest' ++ [Event.fire (t1 + W) 1 false]) := by
      simp [burstEvents]
    have hstep2 : step (cfgW d W l tr) (burstMid d W t1 u tu a j n liv li lg)
        (Event.call t b false) =
        burstMid d W t1 n t b (j + 1) (n + 1)
          [⟨1, t1 + W, TimerKind.maxW⟩, ⟨n, t + d, TimerKind.debTrail⟩]
          li lg := hstep
    refine ⟨?_, ?_⟩
    · rw [hev, run_cons, hstep2, hrest.1, List.getLastD_cons]
      simp only [List.length_cons, List.append_cancel_left_eq, List.cons.injEq,
        ActionCall.mk.injEq, and_true, true_and]
      omega
    · have hdue : ∀ tm ∈ liv, t ≤ tm.due := by
        rcases hliv with rfl | rfl <;>
          · intro tm htm
            simp at htm
            rcases htm with rfl | rfl <;> simp <;> omega
      rw [hev]
      simp only [wellTimedB, Event.time]
      rw [hstep2]
      simp [List.all_eq_true, Nat.le_of_lt h1]
      exact ⟨hdue, hrest.2⟩

/-- C7: debounce with a finite max wait, for every leading/trailing setting.
The last conjunct shows a call never installs a new max-wait timer while one
is referenced (so the timer is started only when none is live and is never
renewed).  The first two conjuncts are the forcing property: for any burst of
at least two calls starting at `t1` (strictly increasing, consecutive gaps
strictly below `delay`, all by `t1 + maxWait`, with the last trailing window
still open at `t1 + maxWait`), the run consisting of the burst followed by
the max-wait timer firing is realizable under eager timer semantics
(`wellTimedB`), and its action calls are exactly the leading invocation (when
`leading = true`) followed by the forced invocation at `t1 + maxWait` —
anchored at the first call of the burst — with the argument tuple of the
latest call. -/
theorem c7_debounce_maxwait_forces (d W : Nat) (l tr : Bool) (hW : 0 < W)
    (t1 t2 : Nat) (a1 a2 : α) (rest2 : List (Nat × α))
    (hchain : List.Chain (fun p q => p.1 < q.1 ∧ q.1 < p.1 + d) (t1, a1)
      ((t2, a2) :: rest2))
    (hupto : ∀ p ∈ (t2, a2) :: rest2, p.1 ≤ t1 + W)
    (hend : t1 + W < (rest2.getLastD (t2, a2)).1 + d) :
    ((run (cfgW d W l tr) State.initial
        (burstEvents ((t1, a1) :: (t2, a2) :: rest2) ++
          [Event.fire (t1 + W) 1 false])).log =
      (cond l [⟨t1, a1, 0⟩] []) ++
        [⟨t1 + W, (rest2.getLastD (t2, a2)).2, 1 + rest2.length⟩] ∧
     wellTimedB (cfgW d W l tr) 0 State.initial
       (burstEvents ((t1, a1) :: (t2, a2) :: rest2) ++
         [Event.fire (t1 + W) 1 false]) = true) ∧
    (∀ (s : State α) (i now : Nat) (b : α), s.maxWaitRef = some i →
      (callOp (cfgW d W l tr) now b false s).maxWaitRef = some i) := by
  have hW' : W ≠ 0 := Nat.pos_iff_ne_zero.mp hW
  obtain ⟨⟨h1, h2⟩, hchain'⟩ := List.chain_cons.mp hchain
  have ht2W : t2 ≤ t1 + W := hupto (t2, a2) (by simp)
  have hev : burstEvents ((t1, a1) :: (t2, a2) :: rest2) ++
      [Event.fire (t1 + W) 1 false] =
      Event.call t1 a1 false :: Event.call t2 a2 false ::
        (burstEvents rest2 ++ [Event.fire (t1 + W) 1 false]) := by
    simp [burstEvents]
  have hstep1 : step (cfgW d W l tr) State.initial (Event.call t1 a1 false) =
      firstState d W t1 a1 l :=
    burst_first_call d W t1 l tr hW' a1
  have hstep2 : step (cfgW d W l tr) (firstState d W t1 a1 l)
      (Event.call t2 a2 false) =
      burstMid d W t1 2 t2 a2 1 3
        [⟨1, t1 + W, TimerKind.maxW⟩, ⟨2, t2 + d, TimerKind.debTrail⟩]
        (cond l t1 0) (cond l [⟨t1, a1, 0⟩] []) :=
    burst_second_call d W t1 t2 l tr a1 a2
  have hrun := burst_run d W t1 l tr (cond l t1 0) (cond l [⟨t1, a1, 0⟩] [])
    rest2 2 t2 3 1 a2
    [⟨1, t1 + W, TimerKind.maxW⟩, ⟨2, t2 + d, TimerKind.debTrail⟩]
    (Or.inr rfl) (by omega) (by omega) hchain'
    (fun q hq => hupto q (List.mem_cons_of_mem _ hq)) ht2W hend
  refine ⟨⟨?_, ?_⟩, ?_⟩
  · rw [hev, run_cons, hstep1, run_cons, hstep2, hrun.1]
  · rw [hev]
    simp only [wellTimedB, Event.time]
    rw [hstep1]
    have hdue1 : ∀ tm ∈ (firstState d W t1 a1 l : State α).live, t2 ≤ tm.due := by
      intro tm htm
      simp [firstState] at htm
      rcases htm with rfl | rfl <;> simp <;> omega
    rw [hstep2]
    simp [State.initial, List.all_eq_true, Nat.le_of_lt h1]
    exact ⟨hdue1, hrun.2⟩
  · intro s i now b hs
    cases hT : s.timeoutRef <;> cases hl : l <;>
      simp [callOp, cfgW, handleDebounce, debounceSchedule, addTrailTimer,
        removeLive, invokeFn, hT, hl, hs, maxWaitEnabled]

/-- Witness for `c7_debounce_maxwait_forces` with `leading = true`:
`delay = 10`, `maxWait = 5`, calls at t = 0 (leading invocation, args `1`) and
t = 3; the max-wait timer fires at t = 5 with args `2`. -/
theorem c7_debounce_maxwait_forces_witness :
    List.Chain (fun p q : Nat × Nat => p.1 < q.1 ∧ q.1 < p.1 + 10)
      (0, 1) [(3, 2)] ∧
    (∀ p ∈ [((3 : Nat), (2 : Nat))], p.1 ≤ 0 + 5) ∧
    0 + 5 < (([] : List (Nat × Nat)).getLastD (3, 2)).1 + 10 ∧
    (run (cfgW 10 5 true true) State.initial
        (burstEvents [((0 : Nat), (1 : Nat)), (3, 2)] ++
          [Event.fire (0 + 5) 1 false])).log =
      (cond true [⟨0, 1, 0⟩] []) ++
        [⟨0 + 5, (([] : List (Nat × Nat)).getLastD (3, 2)).2,
          1 + ([] : List (Nat × Nat)).length⟩] ∧
    wellTimedB (cfgW 10 5 true true) 0 State.initial
      (burstEvents [((0 : Nat), (1 : Nat)), (3, 2)] ++
        [Event.fire (0 + 5) 1 false]) = true :=
  ⟨List.Chain.cons (by decide) List.Chain.nil, by decide, by decide,
    ((c7_debounce_maxwait_forces 10 5 true true (by decide) 0 3 1 2 []
      (List.Chain.cons (by decide) List.Chain.nil) (by decide) (by decide)).1).1,
    ((c7_debounce_maxwait_forces 10 5 true true (by decide) 0 3 1 2 []
      (List.Chain.cons (by decide) List.Chain.nil) (by decide) (by decide)).1).2⟩

end Delayed
